import Mathlib

/-!
Shallow embedding of the `feedtrigger` Go library (package feedtrigger,
file feedtrigger.go, and its sample command under cmd/gh-repos-mon).

The library polls Atom/RSS feeds, diffs the fetched items against a
persisted "head marker" keyed by the feed's URL, invokes a user callback
for each item classified new, and overwrites the marker.

Modelling choices:
* `gofeed.Item` is embedded with the three fields the core reads
  (`Title`, `Updated`, `Published`).
* The gokv store is embedded as an association list `Store` from string
  keys to `FeedHead` records; `storeGet`/`storeSet` model `Get`/`Set`.
  Failures of the external `Get`/`Set` calls are injected through
  `Option String` oracles (`getErr`, `setErr`), and a fetch outcome is an
  `Except String (List Item)` — the external fetcher either fails or
  yields the ordered (newest-first) item list.
* Error wrapping via `fmt.Errorf("...: %w", err)` is embedded by the
  distinct constructors of `Outcome` carrying the underlying message.
* `feed.Items[0]` on an empty slice panics in Go; the embedding makes
  this exit explicit as the `Outcome.indexOutOfRange` result.
* The `sync.Mutex` on `FeedAction` is embedded by the `locked` field of
  `CycleResult`: `true` means the cycle returned while still holding the
  lock taken by `a.Lock()`.
-/

namespace Feedtrigger

/-- One entry of a fetched feed (`gofeed.Item`), restricted to the fields
the core reads. -/
structure Item where
  Title : String
  Updated : String
  Published : String
deriving Repr, DecidableEq

/-- The trigger callback `NewItemAction`: `func(*gofeed.Item) error`. -/
abbrev NewItemAction := Item → Except String Unit

/-- Go `time.Duration`: a count of nanoseconds. -/
abbrev Duration := Nat

/-- One minute (`time.Minute`) in nanoseconds. -/
def Minute : Duration := 60 * 1000000000

/-- A `Feed` to poll: URL, callback, refresh period. -/
structure Feed where
  URL : String
  OnNewRecord : NewItemAction
  RefreshPeriod : Duration

/-- Builder `NewFeed`: returns a feed by URL with default refresh period of 1 minute. -/
def NewFeed (url : String) (action : NewItemAction) : Feed :=
  { URL := url
    OnNewRecord := action
    RefreshPeriod := 1 * Minute }

/-- The persisted top-of-feed marker `FeedHead`. -/
structure FeedHead where
  Title : String
  Updated : String
  Published : String
deriving Repr, DecidableEq

/-- The gokv key-value store, embedded as an association list keyed by
feed URL. -/
abbrev Store := List (String × FeedHead)

/-- Embeds `Store.Get`: the stored record for a key, if present. -/
def storeGet : Store → String → Option FeedHead
  | [], _ => none
  | (k', v) :: rest, k => if k' = k then some v else storeGet rest k

/-- Embeds `Store.Set`: replace the record stored under `k` (or add one). -/
def storeSet : Store → String → FeedHead → Store
  | [], k, v => [(k, v)]
  | (k', v') :: rest, k, v =>
    if k' = k then (k, v) :: rest else (k', v') :: storeSet rest k v

/-- The keys holding a record in the store. -/
def storeKeys (s : Store) : List String := s.map Prod.fst

/-- How one call of `FeedAction.run` exits, mirroring the Go returns:
the distinct constructors embed the `fmt.Errorf` wrapping contexts, and
`indexOutOfRange` embeds the runtime panic of `feed.Items[0]` on an
empty item slice. -/
inductive Outcome where
  | fetchError (e : String)
  | indexOutOfRange
  | getError (e : String)
  | setError (e : String)
  | triggerError (e : String)
  | ok
deriving Repr, DecidableEq

/-- The observable effect of one poll cycle: how it exited, the items the
callback was invoked on (in invocation order), the resulting store, and
whether the cycle returned while still holding the mutex. -/
structure CycleResult where
  outcome : Outcome
  calls : List Item
  store : Store
  locked : Bool
deriving Repr

/-- The diff loop of `FeedAction.run` (lines 149–158 of feedtrigger.go):
walk the fetched items from index 0, invoking the callback while the
title differs from the stored head title, breaking at the first match.
Returns the items the callback was invoked on and the first callback
error, if any. -/
def triggerLoop (cb : NewItemAction) (headTitle : String) :
    List Item → List Item × Option String
  | [] => ([], none)
  | it :: rest =>
    if headTitle ≠ it.Title then
      match cb it with
      | .error e => ([it], some e)
      | .ok _ =>
        let r := triggerLoop cb headTitle rest
        (it :: r.1, r.2)
    else ([], none)

/-- Embeds `FeedAction.run` — one poll cycle for one feed: fetch, take
`feed.Items[0]`, get the stored head for `f.URL`; on first run store a
head built from item 0 with no callbacks, otherwise run the diff loop
and, when it succeeds, overwrite the stored head with one built from
item 0. `getErr`/`setErr` inject failures of the external store calls;
`fetchRes` is the fetcher's outcome. -/
def run (f : Feed) (getErr setErr : Option String)
    (fetchRes : Except String (List Item)) (store : Store) : CycleResult :=
  match fetchRes with
  | .error e => ⟨.fetchError e, [], store, false⟩
  | .ok items =>
    match items with
    | [] => ⟨.indexOutOfRange, [], store, false⟩
    | zitem :: rest =>
      match getErr with
      | some e => ⟨.getError e, [], store, false⟩
      | none =>
        match storeGet store f.URL with
        | none =>
          -- first run: a.Lock(); Set; on error, return with the lock held
          match setErr with
          | some e => ⟨.setError e, [], store, true⟩
          | none =>
            ⟨.ok, [],
              storeSet store f.URL
                ⟨zitem.Title, zitem.Updated, zitem.Published⟩, false⟩
        | some head =>
          match triggerLoop f.OnNewRecord head.Title (zitem :: rest) with
          | (calls, some e) => ⟨.triggerError e, calls, store, false⟩
          | (calls, none) =>
            -- a.Lock(); Set; on error, return with the lock held
            match setErr with
            | some e => ⟨.setError e, calls, store, true⟩
            | none =>
              ⟨.ok, calls,
                storeSet store f.URL
                  ⟨zitem.Title, zitem.Updated, zitem.Published⟩, false⟩

/-- The longest prefix of the fetched items whose titles all differ from
the stored head title — the items the spec classifies as new. -/
def newItemsOf (headTitle : String) : List Item → List Item
  | [] => []
  | it :: rest =>
    if headTitle ≠ it.Title then it :: newItemsOf headTitle rest else []

/-- The `FeedAction` built by `New`: the store handle and the feed list. -/
structure FeedAction where
  Store : Store
  Feeds : List Feed

/-- Application builder `New`: use the supplied store when non-nil,
otherwise open the default bbolt store (`defaultStore` is that external
call's outcome), failing when it cannot be opened. -/
def New (s : Option Store) (defaultStore : Except String Store)
    (ff : List Feed) : Except String FeedAction :=
  match s with
  | some store => .ok ⟨store, ff⟩
  | none =>
    match defaultStore with
    | .error e => .error e
    | .ok store => .ok ⟨store, ff⟩

/-! ### Helper lemmas -/

/-- When the callback succeeds on every item of the differing-title
prefix, the diff loop invokes it exactly on that prefix and reports no
error. -/
theorem triggerLoop_of_ok (cb : NewItemAction) (t : String) :
    ∀ items : List Item, (∀ it ∈ newItemsOf t items, cb it = .ok ()) →
      triggerLoop cb t items = (newItemsOf t items, none) := by
  intro items
  induction items with
  | nil => intro _; rfl
  | cons it rest ih =>
    intro hcb
    by_cases hit : t ≠ it.Title
    · have h1 : cb it = .ok () := by
        apply hcb
        simp [newItemsOf, if_pos hit]
      have h2 : triggerLoop cb t rest = (newItemsOf t rest, none) := by
        apply ih
        intro x hx
        apply hcb
        simp [newItemsOf, if_pos hit, hx]
      simp [triggerLoop, newItemsOf, if_pos hit, h1, h2]
    · simp [triggerLoop, newItemsOf, if_neg hit]

/-- When the callback succeeds on the items of `p₁` but fails on `it₀`,
where `p₁ ++ it₀ :: p₂` is the differing-title prefix, the diff loop
invokes the callback on `p₁` and then on `it₀`, and stops with that
error. -/
theorem triggerLoop_of_error (cb : NewItemAction) (t : String)
    (items p₁ : List Item) (it₀ : Item) (p₂ : List Item) (e : String)
    (hsplit : newItemsOf t items = p₁ ++ it₀ :: p₂)
    (hok : ∀ it ∈ p₁, cb it = .ok ())
    (herr : cb it₀ = .error e) :
    triggerLoop cb t items = (p₁ ++ [it₀], some e) := by
  induction items generalizing p₁ with
  | nil => simp [newItemsOf] at hsplit
  | cons it rest ih =>
    by_cases hit : t ≠ it.Title
    · rw [newItemsOf, if_pos hit] at hsplit
      cases p₁ with
      | nil =>
        simp only [List.nil_append, List.cons.injEq] at hsplit
        rw [triggerLoop, if_pos hit, hsplit.1, herr]
        simp
      | cons q q₁ =>
        simp only [List.cons_append, List.cons.injEq] at hsplit
        have hq : cb it = .ok () := by
          rw [hsplit.1]; exact hok q (by simp)
        have hrest : triggerLoop cb t rest = (q₁ ++ [it₀], some e) :=
          ih q₁ hsplit.2 (fun x hx => hok x (by simp [hx]))
        rw [triggerLoop, if_pos hit, hq]
        simp [hrest, hsplit.1]
    · rw [newItemsOf, if_neg hit] at hsplit
      simp at hsplit

/-- When no fetched title matches the stored title, the whole fetched
list is the differing-title prefix. -/
theorem newItemsOf_of_no_match (t : String) :
    ∀ items : List Item, (∀ it ∈ items, t ≠ it.Title) →
      newItemsOf t items = items := by
  intro items
  induction items with
  | nil => intro _; rfl
  | cons it rest ih =>
    intro hall
    rw [newItemsOf, if_pos (hall it (by simp))]
    rw [ih (fun x hx => hall x (by simp [hx]))]

/-- When the stored title matches already the title at index 0, the
differing-title prefix is empty. -/
theorem newItemsOf_of_head_match (t : String) (z : Item) (rest : List Item)
    (h : t = z.Title) : newItemsOf t (z :: rest) = [] := by
  rw [newItemsOf, if_neg (by simp [h])]

/-- Reading with `storeGet` after `storeSet` at the written key. -/
theorem storeGet_storeSet_self (s : Store) (k : String) (v : FeedHead) :
    storeGet (storeSet s k v) k = some v := by
  induction s with
  | nil => simp [storeSet, storeGet]
  | cons p rest ih =>
    by_cases hk : p.1 = k
    · simp [storeSet, hk, storeGet]
    · simp [storeSet, hk, storeGet, ih]

/-- Reading with `storeGet` after `storeSet` at any other key is unchanged. -/
theorem storeGet_storeSet_ne (s : Store) (u k : String) (v : FeedHead)
    (hk : k ≠ u) : storeGet (storeSet s u v) k = storeGet s k := by
  induction s with
  | nil => simp [storeSet, storeGet, Ne.symm hk]
  | cons p rest ih =>
    by_cases hp : p.1 = u
    · simp [storeSet, hp, storeGet, Ne.symm hk]
    · simp [storeSet, hp, storeGet, ih]

/-- Unfolding `storeKeys` on a cons cell. -/
theorem storeKeys_cons (p : String × FeedHead) (rest : Store) :
    storeKeys (p :: rest) = p.1 :: storeKeys rest := rfl

/-- A key present after `storeSet` was present before or is the written
key. -/
theorem mem_storeKeys_storeSet (s : Store) (u x : String) (v : FeedHead)
    (hx : x ∈ storeKeys (storeSet s u v)) : x ∈ storeKeys s ∨ x = u := by
  induction s with
  | nil => simpa [storeSet, storeKeys] using hx
  | cons p rest ih =>
    by_cases hp : p.1 = u
    · rw [storeSet, if_pos hp, storeKeys_cons, List.mem_cons] at hx
      rcases hx with hx | hx
      · exact Or.inr hx
      · refine Or.inl ?_
        rw [storeKeys_cons, List.mem_cons]
        exact Or.inr hx
    · rw [storeSet, if_neg hp, storeKeys_cons, List.mem_cons] at hx
      rcases hx with hx | hx
      · refine Or.inl ?_
        rw [storeKeys_cons, List.mem_cons]
        exact Or.inl hx
      · rcases ih hx with h | h
        · refine Or.inl ?_
          rw [storeKeys_cons, List.mem_cons]
          exact Or.inr h
        · exact Or.inr h

/-- Writing with `storeSet` keeps the store's keys free of duplicates: at most one
record per feed URL. -/
theorem storeKeys_nodup_storeSet (s : Store) (u : String) (v : FeedHead)
    (hs : (storeKeys s).Nodup) : (storeKeys (storeSet s u v)).Nodup := by
  induction s with
  | nil => simp [storeSet, storeKeys]
  | cons p rest ih =>
    rw [storeKeys, List.map_cons, List.nodup_cons] at hs
    by_cases hp : p.1 = u
    · rw [storeSet, if_pos hp, storeKeys, List.map_cons, List.nodup_cons]
      exact ⟨by rw [← hp]; exact hs.1, hs.2⟩
    · rw [storeSet, if_neg hp, storeKeys, List.map_cons, List.nodup_cons]
      refine ⟨?_, ih hs.2⟩
      intro hmem
      rcases mem_storeKeys_storeSet rest u p.1 v hmem with h | h
      · exact hs.1 h
      · exact hp h

/-- The store a cycle leaves behind is the input store or the input
store with the head for `f.URL` overwritten. -/
theorem run_store_cases (f : Feed) (getErr setErr : Option String)
    (fetchRes : Except String (List Item)) (store : Store) :
    (run f getErr setErr fetchRes store).store = store ∨
      ∃ v, (run f getErr setErr fetchRes store).store =
        storeSet store f.URL v := by
  rw [run.eq_def]
  repeat' split
  all_goals first
    | exact Or.inl rfl
    | exact Or.inr ⟨_, rfl⟩

/-- Unfolding one cycle when the head marker is found: the cycle reduces
to the diff loop followed by the write phase. -/
theorem run_found (f : Feed) (setErr : Option String) (z : Item)
    (rest : List Item) (store : Store) (head : FeedHead)
    (hfound : storeGet store f.URL = some head) :
    run f none setErr (.ok (z :: rest)) store =
      match triggerLoop f.OnNewRecord head.Title (z :: rest) with
      | (calls, some e) => ⟨.triggerError e, calls, store, false⟩
      | (calls, none) =>
        match setErr with
        | some e => ⟨.setError e, calls, store, true⟩
        | none =>
          ⟨.ok, calls,
            storeSet store f.URL ⟨z.Title, z.Updated, z.Published⟩,
            false⟩ := by
  rw [run.eq_def, hfound]

/-! ### Claim theorems -/

/-- C1: in a poll cycle whose head marker is found and whose callback
invocations all succeed, the callback is invoked exactly once per item of
the longest prefix of the fetched items whose titles all differ from the
stored title, in fetch order; the first title-matching item and
everything after it get no callback; and when no title matches, every
fetched item gets the callback. -/
theorem run_found_calls (f : Feed) (setErr : Option String)
    (items : List Item) (store : Store) (head : FeedHead)
    (hne : items ≠ [])
    (hfound : storeGet store f.URL = some head)
    (hcb : ∀ it ∈ newItemsOf head.Title items, f.OnNewRecord it = .ok ()) :
    (run f none setErr (.ok items) store).calls =
      newItemsOf head.Title items ∧
    ((∀ it ∈ items, head.Title ≠ it.Title) →
      (run f none setErr (.ok items) store).calls = items) := by
  obtain ⟨z, rest, rfl⟩ := List.exists_cons_of_ne_nil hne
  have htl := triggerLoop_of_ok f.OnNewRecord head.Title (z :: rest) hcb
  have hrun := run_found f setErr z rest store head hfound
  rw [hrun, htl]
  constructor
  · cases setErr <;> rfl
  · intro hall
    have hself := newItemsOf_of_no_match head.Title (z :: rest) hall
    cases setErr <;> exact hself

/-- Witness for C1: stored title "A", fetch ["C","B","A","X"] — the
callback fires exactly on ["C","B"]. -/
theorem run_found_calls_witness :
    (run ⟨"u", fun _ => Except.ok (), Minute⟩ none none
        (.ok [⟨"C", "", ""⟩, ⟨"B", "", ""⟩, ⟨"A", "", ""⟩, ⟨"X", "", ""⟩])
        [("u", ⟨"A", "", ""⟩)]).calls =
      newItemsOf "A"
        [⟨"C", "", ""⟩, ⟨"B", "", ""⟩, ⟨"A", "", ""⟩, ⟨"X", "", ""⟩] := by
  exact (run_found_calls ⟨"u", fun _ => Except.ok (), Minute⟩ none
    [⟨"C", "", ""⟩, ⟨"B", "", ""⟩, ⟨"A", "", ""⟩, ⟨"X", "", ""⟩]
    [("u", ⟨"A", "", ""⟩)] ⟨"A", "", ""⟩ (by simp) rfl
    (fun it _ => rfl)).1

/-- C2: a poll cycle with no stored head marker invokes the callback
zero times, and on success stores a marker built from the item at
index 0. -/
theorem run_first_run (f : Feed) (z : Item) (rest : List Item)
    (store : Store) (hnf : storeGet store f.URL = none) :
    (∀ setErr, (run f none setErr (.ok (z :: rest)) store).calls = []) ∧
    run f none none (.ok (z :: rest)) store =
      ⟨.ok, [], storeSet store f.URL ⟨z.Title, z.Updated, z.Published⟩,
        false⟩ := by
  constructor
  · intro setErr
    rw [run.eq_def, hnf]
    cases setErr <;> rfl
  · rw [run.eq_def, hnf]

/-- Witness for C2: empty store, fetch ["C"] — zero callbacks and the
marker is built from the newest item. -/
theorem run_first_run_witness :
    (run ⟨"u", fun _ => Except.ok (), Minute⟩ none none
        (.ok [⟨"C", "c", "p"⟩]) []).calls = [] ∧
    run ⟨"u", fun _ => Except.ok (), Minute⟩ none none
        (.ok [⟨"C", "c", "p"⟩]) [] =
      ⟨.ok, [], storeSet [] "u" ⟨"C", "c", "p"⟩, false⟩ := by
  have h := run_first_run ⟨"u", fun _ => Except.ok (), Minute⟩
    ⟨"C", "c", "p"⟩ [] [] rfl
  exact ⟨h.1 none, h.2⟩

/-- C3: in a poll cycle whose head marker is found, a callback failure
makes the cycle return that error with no store write: the callback was
invoked on the preceding new items and the failing one, the store is
exactly the input store, and the stored marker for the feed URL is still
the old head. -/
theorem run_trigger_error (f : Feed) (setErr : Option String)
    (items : List Item) (store : Store) (head : FeedHead)
    (p₁ : List Item) (it₀ : Item) (p₂ : List Item) (e : String)
    (hfound : storeGet store f.URL = some head)
    (hsplit : newItemsOf head.Title items = p₁ ++ it₀ :: p₂)
    (hok : ∀ it ∈ p₁, f.OnNewRecord it = .ok ())
    (herr : f.OnNewRecord it₀ = .error e) :
    run f none setErr (.ok items) store =
      ⟨.triggerError e, p₁ ++ [it₀], store, false⟩ ∧
    storeGet (run f none setErr (.ok items) store).store f.URL =
      some head := by
  have hne : items ≠ [] := by
    intro h
    rw [h] at hsplit
    simp [newItemsOf] at hsplit
  obtain ⟨z, rest, rfl⟩ := List.exists_cons_of_ne_nil hne
  have htl := triggerLoop_of_error f.OnNewRecord head.Title (z :: rest)
    p₁ it₀ p₂ e hsplit hok herr
  have hrun := run_found f setErr z rest store head hfound
  rw [hrun, htl]
  exact ⟨rfl, hfound⟩

/-- Witness for C3: stored title "A", fetch ["C","B","A"], callback
failing on "B" — the cycle returns the error after invoking the callback
on "C" and "B", and the store is untouched. -/
theorem run_trigger_error_witness :
    run ⟨"u",
        fun it => if it.Title = "B" then Except.error "boom"
          else Except.ok (), Minute⟩
      none none (.ok [⟨"C", "", ""⟩, ⟨"B", "", ""⟩, ⟨"A", "", ""⟩])
      [("u", ⟨"A", "", ""⟩)] =
      ⟨.triggerError "boom", [⟨"C", "", ""⟩] ++ [⟨"B", "", ""⟩],
        [("u", ⟨"A", "", ""⟩)], false⟩ := by
  exact (run_trigger_error
    ⟨"u",
      fun it => if it.Title = "B" then Except.error "boom"
        else Except.ok (), Minute⟩
    none [⟨"C", "", ""⟩, ⟨"B", "", ""⟩, ⟨"A", "", ""⟩]
    [("u", ⟨"A", "", ""⟩)] ⟨"A", "", ""⟩
    [⟨"C", "", ""⟩] ⟨"B", "", ""⟩ [] "boom"
    rfl (by simp [newItemsOf])
    (by intro it hit; simp at hit; subst hit; simp)
    (by simp)).1

/-- C4: a successful poll cycle with a found head marker ends by
overwriting the stored marker with one built from the item at index 0,
unconditionally — and in the zero-new case (stored title equals the
index-0 title) zero callbacks fire. -/
theorem run_found_success (f : Feed) (z : Item) (rest : List Item)
    (store : Store) (head : FeedHead)
    (hfound : storeGet store f.URL = some head)
    (hcb : ∀ it ∈ newItemsOf head.Title (z :: rest),
      f.OnNewRecord it = .ok ()) :
    (run f none none (.ok (z :: rest)) store).outcome = .ok ∧
    (run f none none (.ok (z :: rest)) store).store =
      storeSet store f.URL ⟨z.Title, z.Updated, z.Published⟩ ∧
    (head.Title = z.Title →
      (run f none none (.ok (z :: rest)) store).calls = []) := by
  have htl := triggerLoop_of_ok f.OnNewRecord head.Title (z :: rest) hcb
  have hrun := run_found f none z rest store head hfound
  rw [hrun, htl]
  refine ⟨rfl, rfl, ?_⟩
  intro hz
  exact newItemsOf_of_head_match head.Title z rest hz

/-- Witness for C4: stored title "C", fetch ["C","B","A"] — the cycle
succeeds with zero callbacks and performs the content-equal overwrite. -/
theorem run_found_success_witness :
    (run ⟨"u", fun _ => Except.ok (), Minute⟩ none none
        (.ok [⟨"C", "", ""⟩, ⟨"B", "", ""⟩, ⟨"A", "", ""⟩])
        [("u", ⟨"C", "", ""⟩)]).outcome = .ok ∧
    (run ⟨"u", fun _ => Except.ok (), Minute⟩ none none
        (.ok [⟨"C", "", ""⟩, ⟨"B", "", ""⟩, ⟨"A", "", ""⟩])
        [("u", ⟨"C", "", ""⟩)]).store =
      storeSet [("u", ⟨"C", "", ""⟩)] "u" ⟨"C", "", ""⟩ ∧
    (run ⟨"u", fun _ => Except.ok (), Minute⟩ none none
        (.ok [⟨"C", "", ""⟩, ⟨"B", "", ""⟩, ⟨"A", "", ""⟩])
        [("u", ⟨"C", "", ""⟩)]).calls = [] := by
  have h := run_found_success ⟨"u", fun _ => Except.ok (), Minute⟩
    ⟨"C", "", ""⟩ [⟨"B", "", ""⟩, ⟨"A", "", ""⟩]
    [("u", ⟨"C", "", ""⟩)] ⟨"C", "", ""⟩ rfl
    (by intro it hit; simp [newItemsOf] at hit)
  exact ⟨h.1, h.2.1, h.2.2 rfl⟩

/-- C5 (divergence evidence): a successful fetch returning an empty item
sequence makes the cycle hit the out-of-bounds access `feed.Items[0]` —
in Go a runtime panic — instead of being handled. -/
theorem run_empty_fetch_out_of_range (f : Feed)
    (getErr setErr : Option String) (store : Store) :
    run f getErr setErr (.ok []) store =
      ⟨.indexOutOfRange, [], store, false⟩ := rfl

/-- C6 (divergence evidence): when the store write fails inside the
critical section, the cycle returns with the mutex still held — the
error path does not release the lock. -/
theorem run_set_error_keeps_lock :
    (run ⟨"u", fun _ => Except.ok (), Minute⟩ none (some "disk full")
        (.ok [⟨"A", "a", "p"⟩]) [("u", ⟨"A", "a", "p"⟩)]).locked =
      true := by
  rfl

/-- C7: a poll cycle reads and writes the store only at the key
`f.URL`: every other key's entry is unchanged, and the
one-marker-per-URL key discipline is preserved. -/
theorem run_store_frame (f : Feed) (getErr setErr : Option String)
    (fetchRes : Except String (List Item)) (store : Store) (k : String)
    (hk : k ≠ f.URL) :
    storeGet (run f getErr setErr fetchRes store).store k =
      storeGet store k ∧
    ((storeKeys store).Nodup →
      (storeKeys (run f getErr setErr fetchRes store).store).Nodup) := by
  rcases run_store_cases f getErr setErr fetchRes store with h | ⟨v, h⟩
  · rw [h]
    exact ⟨rfl, fun hs => hs⟩
  · rw [h]
    exact ⟨storeGet_storeSet_ne store f.URL k v hk,
      fun hs => storeKeys_nodup_storeSet store f.URL v hs⟩

/-- Witness for C7: a cycle on feed URL "u" leaves the entry under "v"
untouched. -/
theorem run_store_frame_witness :
    storeGet (run ⟨"u", fun _ => Except.ok (), Minute⟩ none none
        (.ok [⟨"C", "", ""⟩]) [("v", ⟨"Z", "", ""⟩)]).store "v" =
      storeGet [("v", ⟨"Z", "", ""⟩)] "v" ∧
    ((storeKeys ([("v", ⟨"Z", "", ""⟩)] : Store)).Nodup →
      (storeKeys (run ⟨"u", fun _ => Except.ok (), Minute⟩ none none
        (.ok [⟨"C", "", ""⟩]) [("v", ⟨"Z", "", ""⟩)]).store).Nodup) := by
  exact run_store_frame ⟨"u", fun _ => Except.ok (), Minute⟩ none none
    (.ok [⟨"C", "", ""⟩]) [("v", ⟨"Z", "", ""⟩)] "v" (by simp)

/-- C8: the builder fails exactly when no store is supplied and the
default store cannot be opened, returning that error; with a supplied
store it succeeds and uses exactly that store and feed list. -/
theorem New_spec (s : Option Store) (d : Except String Store)
    (ff : List Feed) :
    ((∃ e, New s d ff = .error e) ↔ s = none ∧ ∃ e, d = .error e) ∧
    (∀ e, s = none → d = .error e → New s d ff = .error e) ∧
    (∀ st, s = some st → New s d ff = .ok ⟨st, ff⟩) := by
  rcases s with _ | st <;> rcases d with e | st' <;> simp [New]

/-- Witness for C8: with no store and a failing default open, the error
propagates; with a supplied store, the application holds it. -/
theorem New_spec_witness :
    New none (.error "no store") ([] : List Feed) = .error "no store" ∧
    New (some []) (.error "no store") [] = .ok ⟨[], []⟩ := by
  exact ⟨(New_spec none (.error "no store") []).2.1 "no store" rfl rfl,
    (New_spec (some []) (.error "no store") []).2.2 [] rfl⟩

/-- C10: a feed built by the builder carries the given URL and callback
and a refresh period of exactly one minute (a positive duration). -/
theorem NewFeed_spec (url : String) (action : NewItemAction) :
    (NewFeed url action).URL = url ∧
    (NewFeed url action).OnNewRecord = action ∧
    (NewFeed url action).RefreshPeriod = 60 * 1000000000 ∧
    0 < (NewFeed url action).RefreshPeriod := by
  refine ⟨rfl, rfl, rfl, ?_⟩
  norm_num [NewFeed, Minute]

end Feedtrigger
